import Mathlib

/-!
Verification of the couchdbkit client core (couchdbkit/client.py,
couchdbkit/client/base.py, couchdbkit/schema/base.py) against its
natural-language specification.

Python dicts holding JSON data are embedded as insertion-ordered
association lists with unique keys (`Doc`); `setKey` mirrors
`d[k] = v` (replace in place, else append), `delKey` mirrors
`del d[k]`, `getKey` mirrors `d.get(k)`.
-/

/-- A JSON-compatible value, the payload type of every wire-form map. -/
inductive JsonVal where
  | str (s : String)
  | num (n : Int)
  | boolean (b : Bool)
  | null
  | arr (xs : List JsonVal)
  | obj (fields : List (String × JsonVal))

/-- A Python dict with JSON values: insertion-ordered association list. -/
abbrev Doc := List (String × JsonVal)

/-- Embeds `d.get(k)`: value at the first entry whose key is `k`. -/
def getKey (d : Doc) (k : String) : Option JsonVal :=
  match d with
  | [] => none
  | (k', v) :: rest => if k' = k then some v else getKey rest k

/-- Embeds `k in d`. -/
def hasKey (d : Doc) (k : String) : Bool :=
  (getKey d k).isSome

/-- Embeds `d[k] = v`: replace the entry in place if present, else append. -/
def setKey (d : Doc) (k : String) (v : JsonVal) : Doc :=
  match d with
  | [] => [(k, v)]
  | (k', v') :: rest => if k' = k then (k, v) :: rest else (k', v') :: setKey rest k v

/-- Embeds `del d[k]` (on a unique-keyed dict): drop the entry for `k`. -/
def delKey (d : Doc) (k : String) : Doc :=
  d.filter (fun p => p.1 ≠ k)

/-- Embeds `d.update(e)`: assign every entry of `e` into `d`, in order. -/
def updateDoc (d e : Doc) : Doc :=
  e.foldl (fun acc p => setKey acc p.1 p.2) d

/-! ## View / query embedding (couchdbkit/client.py, class View) -/

/-- An HTTP method, as used by `View.fetch`. -/
inductive Method where
  | get
  | post

/-- A query-string parameter value after `encode_params`: either a value that
was already a string, or a non-string value carried in JSON-encoded form. -/
inductive EncVal where
  | plain (s : String)
  | encoded (v : JsonVal)

/-- Modelled from the spec: `encode_params` (imported by client.py from
`couchdbkit/resource.py`, a module whose source is not part of this tree):
"query parameter values that are not already strings are JSON-encoded
before transmission". It changes value representation only, never the key
set. -/
def encode_params (ps : Doc) : List (String × EncVal) :=
  ps.map (fun p =>
    (p.1, match p.2 with
          | JsonVal.str s => EncVal.plain s
          | v => EncVal.encoded v))

/-- The wire request issued by one `View.fetch` call: HTTP method, encoded
query-string parameters, and an optional JSON object body. -/
structure FetchRequest where
  method : Method
  query : List (String × EncVal)
  body : Option Doc

/-- Embeds `View.fetch` (client.py lines 599-614), up to the wire request it issues:
`params = self.params.copy(); params.update(extra_params)`; if `'keys' in
params` the key-set is popped from the query parameters and sent as the JSON
body `{"keys": keys}` of a POST, otherwise a plain GET is issued. (Caching
of the decoded response body is orthogonal to the request shape and is not
modelled here.) -/
def View.fetchRequest (viewParams extraParams : Doc) : FetchRequest :=
  let params := updateDoc viewParams extraParams
  match getKey params "keys" with
  | some keys =>
      { method := Method.post
        query := encode_params (delKey params "keys")
        body := some [("keys", keys)] }
  | none =>
      { method := Method.get
        query := encode_params params
        body := none }

/-- A key passed to `View.__getitem__`: a slice, a list/tuple of keys, or a
single scalar key. -/
inductive ViewIndex where
  | islice (start stop : Option JsonVal)
  | iseq (ks : List JsonVal)
  | iscalar (k : JsonVal)

/-- Embeds `View.__getitem__` (client.py lines 681-694). The receiver's parameters
are copied (`params = self.params.copy()`), the copy is extended according to
the index kind, and a fresh View is built from it. The first component is
the new View's parameter mapping; the second is the receiver's parameter
mapping after the call (returned explicitly so that the absence of receiver
mutation is part of the embedded behaviour). -/
def View.getItem (selfParams : Doc) (key : ViewIndex) : Doc × Doc :=
  let params := selfParams
  let params :=
    match key with
    | ViewIndex.islice a b =>
        let params := match a with
                      | some v => setKey params "startkey" v
                      | none => params
        match b with
        | some v => setKey params "endkey" v
        | none => params
    | ViewIndex.iseq ks => setKey params "keys" (JsonVal.arr ks)
    | ViewIndex.iscalar k => setKey params "key" k
  (params, selfParams)

/-- Outcome of `View.one` (client.py lines 641-660). -/
inductive OneOutcome where
  | multipleResultsFound
  | noResultFound
  | result (r : Doc)
  | noneSentinel

/-- Embeds `View.one(except_all)` (client.py lines 641-660) over the row list of the
fetched result (`results.get('rows', [])`, each row a JSON object): `length =
len(self)` counts the rows; more than one row raises MultipleResultsFound;
then `first()` returns the first row or None, and a None result with
`except_all` set raises NoResultFound. -/
def View.one (rows : List Doc) (except_all : Bool) : OneOutcome :=
  if rows.length > 1 then
    OneOutcome.multipleResultsFound
  else
    match rows with
    | [] => if except_all then OneOutcome.noResultFound else OneOutcome.noneSentinel
    | r :: _ => OneOutcome.result r

/-! ## Persistence lifecycle: Database.save_doc (client.py lines 254-297) -/

/-- Server response to one document write (PUT or POST): either a revision
conflict, or success with the JSON body of the response. -/
inductive PutOutcome where
  | conflict
  | ok (resp : Doc)

/-- The transport behaviour seen by one `save_doc` call, as an explicit
script: the responses to the successive PUT requests, the response to the
fallback POST of the no-id branch, and the current revision returned by
`last_rev` (the HEAD etag). -/
structure SaveTransport where
  puts : List PutOutcome
  postRes : PutOutcome
  lastRev : String

/-- Result of `save_doc` on the in-memory document: success with the updated
document, or a propagated ResourceConflict together with the document state
at the moment of the raise; `putsUsed` counts the PUT requests issued.
`outOfScript` marks a run that needs more transport responses than the
script supplies (a modelling artifact, not a code behaviour). -/
inductive SaveResult where
  | ok (doc : Doc) (putsUsed : Nat)
  | conflictRaised (doc : Doc) (putsUsed : Nat)
  | outOfScript

/-- Embeds `doc.update(doc1)` where `doc1 = {n: json_res[a] for a, n in
aliases.items() if a in json_res}` with `aliases = {'id': '_id',
'rev': '_rev'}` (client.py lines 46-49 and 291-297). -/
def updateAliases (doc resp : Doc) : Doc :=
  let doc := match getKey resp "id" with
             | some v => setKey doc "_id" v
             | none => doc
  match getKey resp "rev" with
  | some v => setKey doc "_rev" v
  | none => doc

/-- Embeds `Database.save_doc(doc, force_update)` (client.py lines 254-297), for
documents without an `_attachments` member (the attachment re-encoding step
at lines 270-271 is skipped exactly as it is for such documents). With
`'_id' in doc`: one PUT; on ResourceConflict, re-raise unless `force_update`,
else substitute `last_rev` into `doc['_rev']` and PUT once more, any second
conflict propagating uncaught. Without `_id`: a uuid is assigned to
`doc['_id']` and PUT; on conflict the payload is POSTed instead. On success
the document is updated from the response via the id/rev aliases. -/
def save_doc (t : SaveTransport) (uuidNext : String) (doc : Doc)
    (force_update : Bool) : SaveResult :=
  if hasKey doc "_id" then
    match t.puts with
    | [] => SaveResult.outOfScript
    | p1 :: rest =>
      match p1 with
      | PutOutcome.ok resp => SaveResult.ok (updateAliases doc resp) 1
      | PutOutcome.conflict =>
        if !force_update then
          SaveResult.conflictRaised doc 1
        else
          let doc' := setKey doc "_rev" (JsonVal.str t.lastRev)
          match rest with
          | [] => SaveResult.outOfScript
          | p2 :: _ =>
            match p2 with
            | PutOutcome.ok resp => SaveResult.ok (updateAliases doc' resp) 2
            | PutOutcome.conflict => SaveResult.conflictRaised doc' 2
  else
    let doc' := setKey doc "_id" (JsonVal.str uuidNext)
    match t.puts with
    | [] => SaveResult.outOfScript
    | p1 :: _ =>
      match p1 with
      | PutOutcome.ok resp => SaveResult.ok (updateAliases doc' resp) 1
      | PutOutcome.conflict =>
        match t.postRes with
        | PutOutcome.ok resp => SaveResult.ok (updateAliases doc' resp) 1
        | PutOutcome.conflict => SaveResult.conflictRaised doc' 1

/-! ## Persistence lifecycle: DocumentBase.delete (schema/base.py lines 492-508) -/

/-- Embeds `new_document` (schema/base.py line 492): `self._doc.get('_rev') is
None`, i.e. the wire form has no `_rev` entry, or carries an explicit JSON
null there. -/
def new_document (doc : Doc) : Bool :=
  match getKey doc "_rev" with
  | none => true
  | some JsonVal.null => true
  | some _ => false

/-- Outcome of `DocumentBase.delete`: a TypeError (database missing, or
document not yet saved) carrying the unmutated wire form, a propagated
transport error from `delete_doc`, an AttributeError when the wire form has
no `_id` (so `delete_doc(None)` blows up before reaching the server), or
success with the resulting wire form. -/
inductive DeleteOutcome where
  | typeErrNoDb (doc : Doc)
  | typeErrNotSaved (doc : Doc)
  | attrErr (doc : Doc)
  | serverErr (doc : Doc)
  | deleted (doc : Doc)

/-- Embeds `DocumentBase.delete` (schema/base.py lines 494-508): TypeError when the
class has no database; TypeError "the document is not saved" when
`new_document`; otherwise `self._db.delete_doc(self._id)` is called (the
`serverOk` flag scripts whether that round trip succeeds) and on success
`_id` and `_rev` are deleted from the wire form. The second component counts
the `delete_doc` database calls made. -/
def doc_delete (hasDb serverOk : Bool) (doc : Doc) : DeleteOutcome × Nat :=
  if !hasDb then
    (DeleteOutcome.typeErrNoDb doc, 0)
  else if new_document doc then
    (DeleteOutcome.typeErrNotSaved doc, 0)
  else
    match getKey doc "_id" with
    | none => (DeleteOutcome.attrErr doc, 0)
    | some _ =>
      if !serverOk then
        (DeleteOutcome.serverErr doc, 1)
      else
        (DeleteOutcome.deleted (delKey (delKey doc "_id") "_rev"), 1)

/-! ## Persistence lifecycle: Database.save_docs (client.py lines 325-371) -/

/-- Embeds `is_id(doc)` (client.py lines 340-341): `'_id' in doc`. -/
def is_id (doc : Doc) : Bool :=
  hasKey doc "_id"

/-- Embeds `itertools.groupby(docs, f)`: the maximal consecutive runs of `docs`
with the key `f` constant on each run; concatenating the runs restores
`docs`. -/
def groupRuns (f : Doc → Bool) : List Doc → List (Bool × List Doc)
  | [] => []
  | d :: ds =>
    match groupRuns f ds with
    | [] => [(f d, [d])]
    | (k, g) :: rest =>
      if f d = k then (k, d :: g) :: rest else (f d, [d]) :: (k, g) :: rest

/-- The client-side uuid cache (client.py class Uuids, lines 51-70). `next`
pops from the end of the cached list (`self._uuids[:-1], self._uuids[-1]`);
an empty cache triggers an HTTP refill, modelled as exhaustion (`none`). -/
structure UuidPool where
  uuids : List String

def UuidPool.next (p : UuidPool) : Option (String × UuidPool) :=
  match p.uuids.getLast? with
  | none => none
  | some u => some (u, ⟨p.uuids.dropLast⟩)

/-- The loop `for doc in noids: nextid = self.uuids.next(); if nextid:
doc['_id'] = nextid` (client.py lines 349-352) over one run of documents. -/
def assignRun (pool : UuidPool) : List Doc → Option (List Doc × UuidPool)
  | [] => some ([], pool)
  | d :: ds => do
    let (u, pool') ← pool.next
    let d' := if u ≠ "" then setKey d "_id" (JsonVal.str u) else d
    let (ds', pool'') ← assignRun pool' ds
    some (d' :: ds', pool'')

/-- The index of the last run with key `false`, mirroring that the loop
`for k, g in itertools.groupby(docs, is_id): if not k: noids = list(g)`
(client.py lines 343-347) leaves `noids` bound to the LAST such group. -/
def lastFalseRunIdx (runs : List (Bool × List Doc)) : Option Nat :=
  (((List.range runs.length).zip runs).filter (fun p => !p.2.1)).getLast?.map
    (fun p => p.1)

/-- The uuid-assignment phase of `Database.save_docs` with `use_uuids`
(client.py lines 340-352), producing the document list included in the
single `/_bulk_docs` payload (line 354): documents are grouped into
consecutive runs by `is_id`; `noids` ends up as the last id-less run (or
empty), and only those documents receive fresh ids, in place. -/
def save_docs_prepare (pool : UuidPool) (docs : List Doc) (use_uuids : Bool) :
    Option (List Doc × UuidPool) :=
  if !use_uuids then
    some (docs, pool)
  else
    let runs := groupRuns is_id docs
    match lastFalseRunIdx runs with
    | none => some (docs, pool)
    | some j => do
      let g := (runs.getD j (false, [])).2
      let (g', pool') ← assignRun pool g
      some
        ((((List.range runs.length).zip runs).map
            (fun p => if p.1 = j then g' else p.2.2)).flatten,
         pool')

/-- Outcome of the response-processing tail of `Database.save_docs`
(client.py lines 361-371): plain success, or the raised BulkSaveError
carrying the (partially updated) document list and the per-document error
entries. -/
inductive BulkResult where
  | ok (docs : List Doc)
  | bulkSaveError (docs : List Doc) (errors : List Doc)

/-- The loop `for i, r in enumerate(json_res)` (client.py lines 363-368):
entries with an `'error'` member are appended to `errors`; for the others
`docs[i].update({'_id': r['id'], '_rev': r['rev']})` runs in place. `none`
models the Python KeyError/IndexError when a success entry lacks `id`/`rev`
or outruns `docs`. Returns the updated document list (documents beyond the
response untouched) and the collected errors, in order. -/
def updateDocs : List Doc → List Doc → Option (List Doc × List Doc)
  | ds, [] => some (ds, [])
  | [], r :: rs =>
    if hasKey r "error" then do
      let (ds', errs) ← updateDocs [] rs
      some (ds', r :: errs)
    else none
  | d :: ds, r :: rs =>
    if hasKey r "error" then do
      let (ds', errs) ← updateDocs ds rs
      some (d :: ds', r :: errs)
    else do
      let idv ← getKey r "id"
      let revv ← getKey r "rev"
      let (ds', errs) ← updateDocs ds rs
      some (setKey (setKey d "_id" idv) "_rev" revv :: ds', errs)

/-- Embeds `Database.save_docs` from the `/_bulk_docs` response on (client.py lines
361-371): update the documents in place from the per-document entries, then
raise BulkSaveError if any entry carried an error. -/
def save_docs_result (docs res : List Doc) : Option BulkResult :=
  (updateDocs docs res).map (fun p =>
    if p.2.isEmpty then BulkResult.ok p.1 else BulkResult.bulkSaveError p.1 p.2)

/-! ## Document schema instances (couchdbkit/schema/base.py) -/

/-- Embeds `_RESERVED_WORDS` (schema/base.py line 28). -/
def RESERVED_WORDS : List String := ["_id", "_rev", "$schema"]

/-- Embeds `check_reserved_words` (schema/base.py lines 32-36): `true` means the
call raises ReservedWordError. -/
def check_reserved_words (attr_name : String) : Bool :=
  RESERVED_WORDS.contains attr_name

/-- The state of one document instance: `self._doc` (the canonical wire
form), `self._dynamic_properties`, the names of the schema-declared
properties (`self._properties`), the further names reachable by plain
attribute lookup on the object (methods, private slots — what `dir(self)`
and `hasattr` see beyond the above), and the
`_allow_dynamic_properties` class flag. -/
structure DocInstance where
  wire : Doc
  dyn : Doc
  props : List String
  classAttrs : List String
  allowDynamic : Bool

/-- Embeds `valid_id` (schema/base.py lines 38-41): raises TypeError unless the
value is a string not starting with `_`; otherwise returns the value (which
Python then tests for truthiness — the empty string is falsy). -/
def valid_id_r (v : JsonVal) : Except Unit JsonVal :=
  match v with
  | JsonVal.str s =>
      if s.startsWith "_" then Except.error () else Except.ok (JsonVal.str s)
  | _ => Except.error ()

/-- Python truthiness of a JSON value. -/
def jsonTruthy : JsonVal → Bool
  | JsonVal.str s => s ≠ ""
  | JsonVal.num n => n ≠ 0
  | JsonVal.boolean b => b
  | JsonVal.null => false
  | JsonVal.arr xs => !xs.isEmpty
  | JsonVal.obj fs => !fs.isEmpty

/-- Modelled from the spec: membership of a value's type in
`ALLOWED_PROPERTY_TYPES` (schema/properties.py, a module whose source is not
part of this tree): "a dynamic field's type must belong to the allowed
dynamic-value type set (string, number, boolean, datetime-like, nested
document, list, map of primitives) or be rejected at assignment time";
`None` is not in the set (the constructor filters `None`-valued dynamic
fields out). -/
def allowed_dynamic : JsonVal → Bool
  | JsonVal.null => false
  | _ => true

/-- Embeds `hasattr(self, key)`: a dynamic property, one of the `_id`/`_rev`/
`_attachments` keys served from the wire form by `__getattr__`
(schema/base.py lines 224-231), a declared property, or any other attribute
of the object. -/
def hasattrModel (st : DocInstance) (k : String) : Bool :=
  hasKey st.dyn k || (k == "_id" || k == "_rev" || k == "_attachments")
    || st.props.contains k || st.classAttrs.contains k

/-- Embeds `key in dir(self)`: class-level names — declared Property descriptors
and the other object attributes; dynamic properties live only in the
`_dynamic_properties` dict and are not in `dir`. -/
def dirModel (st : DocInstance) (k : String) : Bool :=
  st.props.contains k || st.classAttrs.contains k

/-- Outcome of `DocumentSchema.__setattr__`. -/
inductive SetAttrOutcome where
  | ok (st : DocInstance)
  | reservedWordError
  | typeError
  | attributeError

/-- The `else` branch of `DocumentSchema.__setattr__` (schema/base.py lines
173-211): `check_reserved_words(key)` first; AttributeError when the key is
unknown and dynamic properties are disallowed; a new public, undeclared name
becomes a dynamic property when its value's type is allowed (a list/dict
value is installed as a write-through LazyList/LazyDict over `_doc[key]`, a
plain value is converted and stored, so in either case the wire form ends up
holding the value under the key); any other key falls through to
`object.__setattr__`, which touches neither the wire form nor the dynamic
properties. -/
def setattr_tail (st : DocInstance) (key : String) (v : JsonVal) : SetAttrOutcome :=
  if check_reserved_words key then
    SetAttrOutcome.reservedWordError
  else if !hasattrModel st key && !st.allowDynamic then
    SetAttrOutcome.attributeError
  else if !key.startsWith "_" && !st.props.contains key && !dirModel st key then
    if !allowed_dynamic v then
      SetAttrOutcome.typeError
    else
      SetAttrOutcome.ok
        { st with dyn := setKey st.dyn key v, wire := setKey st.wire key v }
  else
    SetAttrOutcome.ok st

/-- Embeds `DocumentSchema.__setattr__` (schema/base.py lines 162-211): the guard
`if key == "_id" and valid_id(value)` stores a valid, truthy id directly in
the wire form; every other assignment — including one whose key is `_id`
with a falsy (empty-string) valid id — goes through the `else` branch, whose
first statement is `check_reserved_words(key)`. -/
def doc_setattr (st : DocInstance) (key : String) (v : JsonVal) : SetAttrOutcome :=
  if key = "_id" then
    match valid_id_r v with
    | Except.error _ => SetAttrOutcome.typeError
    | Except.ok w =>
      if jsonTruthy w then
        SetAttrOutcome.ok { st with wire := setKey st.wire "_id" v }
      else
        setattr_tail st key v
  else
    setattr_tail st key v

/-- Keys of `self.all_properties()` (schema/base.py lines 148-153): the
declared property names together with the dynamic property names. -/
def all_property_names (st : DocInstance) : List String :=
  st.props ++ st.dyn.map Prod.fst

/-- The union of declared and dynamic field names (the claim's measure). -/
def fieldNames (st : DocInstance) : List String :=
  (st.props ++ st.dyn.map Prod.fst).dedup

/-- Embeds `DocumentSchema.__len__` (schema/base.py lines 289-292):
`len(self._doc or ())`. -/
def doc_len (st : DocInstance) : Nat :=
  st.wire.length

/-- Embeds `DocumentSchema.__contains__` (schema/base.py lines 261-272): the key is
in `all_properties()` or in the wire form `self._doc`. -/
def doc_contains (st : DocInstance) (k : String) : Bool :=
  (all_property_names st).contains k || hasKey st.wire k

/-! ## Transport error taxonomy (couchdbkit/client/base.py lines 124-165) -/

/-- The error taxonomy raised by `CouchdbResource.request`. -/
inductive TransportError where
  | notFound
  | conflict
  | unauthorized
  | requestFailed

/-- The status-to-error translation of `CouchdbResource.request`
(client/base.py lines 148-165): statuses below 400 succeed; 404 raises
ResourceNotFound, 412 raises ResourceConflict, 401/403 raise Unauthorized
(`self.unauthorized(resp)`, lines 121-122, always returns True), every other
status of 400 and above raises RequestFailed. -/
def request_status_error (status : Nat) : Option TransportError :=
  if status ≥ 400 then
    if status = 404 then some TransportError.notFound
    else if status = 412 then some TransportError.conflict
    else if status = 401 ∨ status = 403 then some TransportError.unauthorized
    else some TransportError.requestFailed
  else none

/-! ## Theorems -/

theorem getKey_setKey_self (d : Doc) (k : String) (v : JsonVal) :
    getKey (setKey d k v) k = some v := by
  induction d with
  | nil => simp [setKey, getKey]
  | cons hd tl ih =>
    by_cases h : hd.1 = k
    · simp [setKey, getKey, h]
    · simp [setKey, getKey, h, ih]

theorem getKey_setKey_ne (d : Doc) (k k' : String) (v : JsonVal) (h : k' ≠ k) :
    getKey (setKey d k v) k' = getKey d k' := by
  induction d with
  | nil => simp [setKey, getKey, Ne.symm h]
  | cons hd tl ih =>
    obtain ⟨k0, v0⟩ := hd
    by_cases hh : k0 = k
    · subst hh
      simp [setKey, getKey, Ne.symm h]
    · by_cases hk' : k0 = k'
      · simp [setKey, getKey, hh, hk', h]
      · simp [setKey, getKey, hh, hk', ih]

theorem delKey_cons (k0 : String) (v0 : JsonVal) (tl : Doc) (k : String) :
    delKey ((k0, v0) :: tl) k =
      if k0 = k then delKey tl k else (k0, v0) :: delKey tl k := by
  by_cases h : k0 = k
  · simp [delKey, List.filter, h]
  · simp [delKey, List.filter, h]

theorem hasKey_setKey_self (d : Doc) (k : String) (v : JsonVal) :
    hasKey (setKey d k v) k = true := by
  simp [hasKey, getKey_setKey_self]

theorem getKey_delKey_self (d : Doc) (k : String) :
    getKey (delKey d k) k = none := by
  induction d with
  | nil => simp [delKey, getKey]
  | cons hd tl ih =>
    obtain ⟨k0, v0⟩ := hd
    by_cases h : k0 = k
    · simpa [delKey_cons, h] using ih
    · simpa [delKey_cons, getKey, h] using ih

theorem getKey_delKey_ne (d : Doc) (k k' : String) (h : k' ≠ k) :
    getKey (delKey d k) k' = getKey d k' := by
  induction d with
  | nil => simp [delKey]
  | cons hd tl ih =>
    obtain ⟨k0, v0⟩ := hd
    by_cases hh : k0 = k
    · subst hh
      have hne : k0 ≠ k' := Ne.symm h
      simpa [delKey_cons, getKey, hne] using ih
    · by_cases hk' : k0 = k'
      · simp [delKey_cons, getKey, hh, hk', h]
      · simpa [delKey_cons, getKey, hh, hk'] using ih

theorem hasKey_delKey_self (d : Doc) (k : String) :
    hasKey (delKey d k) k = false := by
  simp [hasKey, getKey_delKey_self]

theorem hasKey_delKey_ne (d : Doc) (k k' : String) (h : k' ≠ k) :
    hasKey (delKey d k) k' = hasKey d k' := by
  simp [hasKey, getKey_delKey_ne d k k' h]

theorem getKey_eq_none_of_not_hasKey (d : Doc) (k : String) (h : hasKey d k = false) :
    getKey d k = none := by
  cases hg : getKey d k with
  | none => rfl
  | some v => simp [hasKey, hg] at h

theorem getKey_updateDoc_not_mem (d e : Doc) (k : String) (h : hasKey e k = false) :
    getKey (updateDoc d e) k = getKey d k := by
  induction e generalizing d with
  | nil => simp [updateDoc]
  | cons hd tl ih =>
    obtain ⟨k0, v0⟩ := hd
    by_cases hk : k0 = k
    · simp [hasKey, getKey, hk] at h
    · have htl : hasKey tl k = false := by
        simpa [hasKey, getKey, hk] using h
      calc getKey (updateDoc (setKey d k0 v0) tl) k
          = getKey (setKey d k0 v0) k := ih (setKey d k0 v0) htl
        _ = getKey d k := getKey_setKey_ne d k0 k v0 (fun hc => hk hc.symm)

theorem getKey_updateDoc_mem (d e : Doc) (k : String)
    (hnd : (e.map Prod.fst).Nodup) (h : hasKey e k = true) :
    getKey (updateDoc d e) k = getKey e k := by
  induction e generalizing d with
  | nil => simp [hasKey, getKey] at h
  | cons hd tl ih =>
    obtain ⟨k0, v0⟩ := hd
    simp only [List.map_cons, List.nodup_cons] at hnd
    by_cases hk : k0 = k
    · subst hk
      have htl : hasKey tl k0 = false := by
        cases hh : hasKey tl k0 with
        | false => rfl
        | true =>
          exfalso
          apply hnd.1
          -- a key with a value in tl is among tl's keys
          have : (getKey tl k0).isSome := by simpa [hasKey] using hh
          clear hh hnd ih h
          induction tl with
          | nil => simp [getKey] at this
          | cons hd2 tl2 ih2 =>
            obtain ⟨k2, v2⟩ := hd2
            by_cases h2 : k2 = k0
            · simp [h2]
            · simp only [getKey, if_neg h2] at this
              simp [ih2 this]
      calc getKey (updateDoc (setKey d k0 v0) tl) k0
          = getKey (setKey d k0 v0) k0 := getKey_updateDoc_not_mem _ tl k0 htl
        _ = some v0 := getKey_setKey_self d k0 v0
        _ = getKey ((k0, v0) :: tl) k0 := by simp [getKey]
    · have htl : hasKey tl k = true := by simpa [hasKey, getKey, hk] using h
      calc getKey (updateDoc (setKey d k0 v0) tl) k
          = getKey tl k := ih (setKey d k0 v0) hnd.2 htl
        _ = getKey ((k0, v0) :: tl) k := by simp [getKey, hk]

/-- C4: for every View fetch, extra parameters are merged over the View's own
parameters with the extra parameters winning on key clashes; if the merged
parameters contain a `keys` entry the query is issued as a POST whose JSON
body is `{"keys": [...]}` with `keys` removed from the query string,
otherwise as a GET with only query-string parameters. -/
theorem view_fetch_merge_and_method (vp extra : Doc) (k : String)
    (hnd : (extra.map Prod.fst).Nodup) :
    (hasKey extra k = true → getKey (updateDoc vp extra) k = getKey extra k) ∧
    (hasKey extra k = false → getKey (updateDoc vp extra) k = getKey vp k) ∧
    (∀ keys, getKey (updateDoc vp extra) "keys" = some keys →
      View.fetchRequest vp extra =
        { method := Method.post
          query := encode_params (delKey (updateDoc vp extra) "keys")
          body := some [("keys", keys)] }) ∧
    (getKey (updateDoc vp extra) "keys" = none →
      View.fetchRequest vp extra =
        { method := Method.get
          query := encode_params (updateDoc vp extra)
          body := none }) := by
  refine ⟨?_, ?_, ?_, ?_⟩
  · intro h
    exact getKey_updateDoc_mem vp extra k hnd h
  · intro h
    exact getKey_updateDoc_not_mem vp extra k h
  · intro keys h
    simp [View.fetchRequest, h]
  · intro h
    simp [View.fetchRequest, h]

theorem view_fetch_merge_and_method_witness :
    View.fetchRequest [("limit", JsonVal.num 5)] [("keys", JsonVal.arr [JsonVal.str "a"])]
      = { method := Method.post
          query := encode_params
            (delKey (updateDoc [("limit", JsonVal.num 5)]
              [("keys", JsonVal.arr [JsonVal.str "a"])]) "keys")
          body := some [("keys", JsonVal.arr [JsonVal.str "a"])] } :=
  (view_fetch_merge_and_method [("limit", JsonVal.num 5)]
      [("keys", JsonVal.arr [JsonVal.str "a"])] "keys" (by simp)).2.2.1
    (JsonVal.arr [JsonVal.str "a"]) rfl

/-- C5: slicing a View as `v[a:b]` yields a fresh View whose parameters are
the receiver's extended with `startkey = a` and `endkey = b` (scalar indexing
sets `key`, sequence indexing sets `keys`), and the receiver's own parameter
mapping is unchanged by the operation. -/
theorem view_getitem_spec (p : Doc) (a b : JsonVal) :
    ((View.getItem p (ViewIndex.islice (some a) (some b))).1
        = setKey (setKey p "startkey" a) "endkey" b) ∧
    (getKey (View.getItem p (ViewIndex.islice (some a) (some b))).1 "startkey"
        = some a) ∧
    (getKey (View.getItem p (ViewIndex.islice (some a) (some b))).1 "endkey"
        = some b) ∧
    (∀ k, k ≠ "startkey" → k ≠ "endkey" →
      getKey (View.getItem p (ViewIndex.islice (some a) (some b))).1 k
        = getKey p k) ∧
    ((View.getItem p (ViewIndex.islice (some a) (some b))).2 = p) ∧
    (∀ kv, View.getItem p (ViewIndex.iscalar kv) = (setKey p "key" kv, p)) ∧
    (∀ ks, View.getItem p (ViewIndex.iseq ks)
        = (setKey p "keys" (JsonVal.arr ks), p)) := by
  refine ⟨rfl, ?_, ?_, ?_, rfl, fun kv => rfl, fun ks => rfl⟩
  · show getKey (setKey (setKey p "startkey" a) "endkey" b) "startkey" = some a
    rw [getKey_setKey_ne _ _ _ _ (by decide)]
    exact getKey_setKey_self p "startkey" a
  · exact getKey_setKey_self (setKey p "startkey" a) "endkey" b
  · intro k h1 h2
    show getKey (setKey (setKey p "startkey" a) "endkey" b) k = getKey p k
    rw [getKey_setKey_ne _ _ _ _ h2, getKey_setKey_ne _ _ _ _ h1]

theorem view_getitem_spec_witness :
    getKey (View.getItem [("limit", JsonVal.num 7)]
        (ViewIndex.islice (some (JsonVal.num 10)) (some (JsonVal.num 20)))).1 "limit"
      = some (JsonVal.num 7) :=
  (view_getitem_spec [("limit", JsonVal.num 7)] (JsonVal.num 10)
      (JsonVal.num 20)).2.2.2.1 "limit" (by decide) (by decide)

/-- C6: `one()` raises MultipleResultsFound whenever the result has more than
one row regardless of the require_result flag; raises NoResultFound on zero
rows with require_result set; and otherwise returns the first row, or the
empty-result sentinel (None) on zero rows with require_result unset. -/
theorem view_one_spec (rows : List Doc) (b : Bool) :
    (rows.length > 1 → View.one rows b = OneOutcome.multipleResultsFound) ∧
    (View.one [] true = OneOutcome.noResultFound) ∧
    (View.one [] false = OneOutcome.noneSentinel) ∧
    (∀ r, View.one [r] b = OneOutcome.result r) := by
  refine ⟨?_, rfl, rfl, fun r => rfl⟩
  intro h
  simp [View.one, h]

theorem view_one_spec_witness :
    View.one [[("id", JsonVal.str "x")], [("id", JsonVal.str "y")]] true
      = OneOutcome.multipleResultsFound :=
  (view_one_spec [[("id", JsonVal.str "x")], [("id", JsonVal.str "y")]] true).1
    (by decide)

/-- C2: saving a document that has an identity, when the server reports a
revision conflict: with `force_update = false` the call raises
ResourceConflict without mutating the document after a single PUT; with
`force_update = true` the current server revision is fetched, substituted
into `_rev`, and the write retried exactly once — a second conflict
propagates to the caller with no further retry, and a successful retry
returns the document with the substituted revision updated from the
response. -/
theorem save_doc_conflict_policy (t : SaveTransport) (u : String) (doc : Doc)
    (h : hasKey doc "_id" = true) :
    (∀ rest, t.puts = PutOutcome.conflict :: rest →
      save_doc t u doc false = SaveResult.conflictRaised doc 1) ∧
    (∀ rest, t.puts = PutOutcome.conflict :: PutOutcome.conflict :: rest →
      save_doc t u doc true
        = SaveResult.conflictRaised (setKey doc "_rev" (JsonVal.str t.lastRev)) 2) ∧
    (∀ resp rest, t.puts = PutOutcome.conflict :: PutOutcome.ok resp :: rest →
      save_doc t u doc true
        = SaveResult.ok
            (updateAliases (setKey doc "_rev" (JsonVal.str t.lastRev)) resp) 2) := by
  refine ⟨?_, ?_, ?_⟩
  · intro rest hp
    simp [save_doc, h, hp]
  · intro rest hp
    simp [save_doc, h, hp]
  · intro resp rest hp
    simp [save_doc, h, hp]

theorem save_doc_conflict_policy_witness :
    save_doc
        { puts := [PutOutcome.conflict], postRes := PutOutcome.conflict,
          lastRev := "2-b" }
        "u1" [("_id", JsonVal.str "d"), ("x", JsonVal.num 1)] false
      = SaveResult.conflictRaised [("_id", JsonVal.str "d"), ("x", JsonVal.num 1)] 1 :=
  (save_doc_conflict_policy
      { puts := [PutOutcome.conflict], postRes := PutOutcome.conflict,
        lastRev := "2-b" }
      "u1" [("_id", JsonVal.str "d"), ("x", JsonVal.num 1)] rfl).1 [] rfl

/-- C10: `delete()` on a Document whose wire form has no `_rev` raises
TypeError before any delete request is issued, leaving the wire form
unchanged; on a saved document, successful deletion removes both `_id` and
`_rev` from the wire form, returning the document to new status. -/
theorem doc_delete_spec (doc : Doc) :
    (new_document doc = true →
      doc_delete true true doc = (DeleteOutcome.typeErrNotSaved doc, 0)) ∧
    (new_document doc = false → hasKey doc "_id" = true →
      doc_delete true true doc
          = (DeleteOutcome.deleted (delKey (delKey doc "_id") "_rev"), 1) ∧
        hasKey (delKey (delKey doc "_id") "_rev") "_id" = false ∧
        hasKey (delKey (delKey doc "_id") "_rev") "_rev" = false ∧
        new_document (delKey (delKey doc "_id") "_rev") = true) := by
  constructor
  · intro h
    simp [doc_delete, h]
  · intro h hid
    obtain ⟨v, hv⟩ : ∃ v, getKey doc "_id" = some v := by
      cases hg : getKey doc "_id" with
      | none => simp [hasKey, hg] at hid
      | some v => exact ⟨v, rfl⟩
    refine ⟨by simp [doc_delete, h, hv], ?_, ?_, ?_⟩
    · rw [hasKey_delKey_ne _ "_rev" "_id" (by decide)]
      exact hasKey_delKey_self doc "_id"
    · exact hasKey_delKey_self (delKey doc "_id") "_rev"
    · unfold new_document
      rw [getKey_delKey_self (delKey doc "_id") "_rev"]

theorem doc_delete_spec_witness :
    doc_delete true true [("_id", JsonVal.str "d"), ("_rev", JsonVal.str "1-a")]
      = (DeleteOutcome.deleted [], 1) ∧
    doc_delete true true [("x", JsonVal.num 3)]
      = (DeleteOutcome.typeErrNotSaved [("x", JsonVal.num 3)], 0) := by
  constructor
  · exact ((doc_delete_spec
      [("_id", JsonVal.str "d"), ("_rev", JsonVal.str "1-a")]).2 rfl rfl).1
  · exact (doc_delete_spec [("x", JsonVal.num 3)]).1 rfl

/-- C1 (failing run): with `docs = [{}, {"_id": "a"}, {}]` the id-less
documents are not contiguous; `groupby` yields three runs and the loop keeps
only the last one, so the document at index 0 is sent to `/_bulk_docs`
without an `_id` even though two uuids were available. The popped uuid
(`"u2"`, taken from the end of the cache) goes to index 2 only. -/
theorem save_docs_prepare_drops_noncontiguous_noids :
    save_docs_prepare ⟨["u1", "u2"]⟩
        [[], [("_id", JsonVal.str "a")], []] true
      = some ([[], [("_id", JsonVal.str "a")], [("_id", JsonVal.str "u2")]],
          ⟨["u1"]⟩) ∧
    ∀ ds pool, save_docs_prepare ⟨["u1", "u2"]⟩
        [[], [("_id", JsonVal.str "a")], []] true = some (ds, pool) →
      hasKey (ds.getD 0 []) "_id" = false := by
  constructor
  · rfl
  · intro ds pool h
    have hds : ds = [[], [("_id", JsonVal.str "a")], [("_id", JsonVal.str "u2")]] := by
      have h' := h.symm.trans (rfl :
        save_docs_prepare ⟨["u1", "u2"]⟩ [[], [("_id", JsonVal.str "a")], []] true
          = some ([[], [("_id", JsonVal.str "a")], [("_id", JsonVal.str "u2")]],
              ⟨["u1"]⟩))
      cases h'
      rfl
    rw [hds]
    rfl

theorem updateDocs_nil (ds : List Doc) : updateDocs ds [] = some (ds, []) := by
  cases ds with
  | nil => rfl
  | cons d t => rfl

theorem getD_mem_of_lt {α : Type} (l : List α) (dflt : α) :
    ∀ i, i < l.length → l.getD i dflt ∈ l := by
  induction l with
  | nil => intro i hi; simp at hi
  | cons a t ih =>
    intro i hi
    cases i with
    | zero => simp
    | succ n =>
      simp only [List.getD_cons_succ]
      exact List.mem_cons_of_mem _ (ih n (by simpa [Nat.succ_lt_succ_iff] using hi))

theorem updateDocs_spec (res : List Doc) : ∀ docs : List Doc,
    res.length ≤ docs.length →
    (∀ r ∈ res, hasKey r "error" = false →
      (getKey r "id").isSome ∧ (getKey r "rev").isSome) →
    ∃ ds errs, updateDocs docs res = some (ds, errs) ∧
      errs = res.filter (fun r => hasKey r "error") ∧
      ds.length = docs.length ∧
      (∀ i, i < res.length → hasKey (res.getD i []) "error" = false →
        ds.getD i [] = setKey (setKey (docs.getD i []) "_id"
            ((getKey (res.getD i []) "id").getD JsonVal.null)) "_rev"
            ((getKey (res.getD i []) "rev").getD JsonVal.null)) ∧
      (∀ i, res.length ≤ i → ds.getD i [] = docs.getD i []) := by
  induction res with
  | nil =>
    intro docs _ _
    exact ⟨docs, [], updateDocs_nil docs, rfl, rfl,
      fun i hi _ => absurd hi (Nat.not_lt_zero i),
      fun i _ => rfl⟩
  | cons r rs ih =>
    intro docs hlen hok
    match docs with
    | [] => simp at hlen
    | d :: ds =>
      have hlen' : rs.length ≤ ds.length := by
        simpa [Nat.succ_le_succ_iff] using hlen
      have hok' : ∀ r' ∈ rs, hasKey r' "error" = false →
          (getKey r' "id").isSome ∧ (getKey r' "rev").isSome :=
        fun r' hr' => hok r' (List.mem_cons_of_mem _ hr')
      obtain ⟨ds', errs', h1, h2, h3, h4, h5⟩ := ih ds hlen' hok'
      by_cases he : hasKey r "error" = true
      · refine ⟨d :: ds', r :: errs', ?_, ?_, ?_, ?_, ?_⟩
        · simp [updateDocs, he, h1]
        · simp [List.filter_cons, he, h2]
        · simp [h3]
        · intro i hi herr
          cases i with
          | zero => simp [List.getD_cons_zero] at herr; rw [herr] at he; cases he
          | succ n =>
            have hn : n < rs.length := by
              simpa [Nat.succ_lt_succ_iff] using hi
            simpa [List.getD_cons_succ] using
              h4 n hn (by simpa [List.getD_cons_succ] using herr)
        · intro i hge
          cases i with
          | zero => simp at hge
          | succ n =>
            have hn : rs.length ≤ n := by
              simpa [Nat.succ_le_succ_iff] using hge
            simpa [List.getD_cons_succ] using h5 n hn
      · have he' : hasKey r "error" = false := by
          cases hb : hasKey r "error" with
          | false => rfl
          | true => exact absurd hb he
        obtain ⟨hid, hrev⟩ := hok r (List.mem_cons_self r rs) he'
        obtain ⟨idv, hidv⟩ : ∃ x, getKey r "id" = some x := by
          cases hg : getKey r "id" with
          | none => rw [hg] at hid; cases hid
          | some x => exact ⟨x, rfl⟩
        obtain ⟨revv, hrevv⟩ : ∃ x, getKey r "rev" = some x := by
          cases hg : getKey r "rev" with
          | none => rw [hg] at hrev; cases hrev
          | some x => exact ⟨x, rfl⟩
        refine ⟨setKey (setKey d "_id" idv) "_rev" revv :: ds', errs',
          ?_, ?_, ?_, ?_, ?_⟩
        · simp [updateDocs, he', hidv, hrevv, h1]
        · simp [List.filter_cons, he', h2]
        · simp [h3]
        · intro i hi herr
          cases i with
          | zero => simp [List.getD_cons_zero, hidv, hrevv]
          | succ n =>
            have hn : n < rs.length := by
              simpa [Nat.succ_lt_succ_iff] using hi
            simpa [List.getD_cons_succ] using
              h4 n hn (by simpa [List.getD_cons_succ] using herr)
        · intro i hge
          cases i with
          | zero => simp at hge
          | succ n =>
            have hn : rs.length ≤ n := by
              simpa [Nat.succ_le_succ_iff] using hge
            simpa [List.getD_cons_succ] using h5 n hn

/-- C3: when the per-document response sequence of a bulk save contains at
least one entry with an error marker, the call raises BulkSaveError carrying
the document list and the per-document errors (exactly the error-marked
entries, in order), and every input document whose response entry succeeded
has been updated in place with the entry's new `id`/`rev` even though the
overall call raises. -/
theorem save_docs_partial_failure (docs res : List Doc)
    (hlen : res.length ≤ docs.length)
    (hok : ∀ r ∈ res, hasKey r "error" = false →
      (getKey r "id").isSome ∧ (getKey r "rev").isSome)
    (herr : ∃ r ∈ res, hasKey r "error" = true) :
    ∃ ds errs, save_docs_result docs res
        = some (BulkResult.bulkSaveError ds errs) ∧
      errs = res.filter (fun r => hasKey r "error") ∧
      ds.length = docs.length ∧
      (∀ i, i < res.length → hasKey (res.getD i []) "error" = false →
        getKey (ds.getD i []) "_rev" = getKey (res.getD i []) "rev" ∧
        getKey (ds.getD i []) "_id" = getKey (res.getD i []) "id") := by
  obtain ⟨ds, errs, h1, h2, h3, h4, _⟩ := updateDocs_spec res docs hlen hok
  have hne : errs.isEmpty = false := by
    obtain ⟨r, hr, hrerr⟩ := herr
    have hmem : r ∈ errs := by
      rw [h2]
      exact List.mem_filter.mpr ⟨hr, hrerr⟩
    cases errs with
    | nil => cases hmem
    | cons a l => rfl
  refine ⟨ds, errs, ?_, h2, h3, ?_⟩
  · simp [save_docs_result, h1, hne]
  · intro i hi hie
    obtain ⟨hid, hrev⟩ := hok (res.getD i []) (getD_mem_of_lt res [] i hi) hie
    obtain ⟨idv, hidv⟩ : ∃ x, getKey (res.getD i []) "id" = some x := by
      cases hg : getKey (res.getD i []) "id" with
      | none => rw [hg] at hid; cases hid
      | some x => exact ⟨x, rfl⟩
    obtain ⟨revv, hrevv⟩ : ∃ x, getKey (res.getD i []) "rev" = some x := by
      cases hg : getKey (res.getD i []) "rev" with
      | none => rw [hg] at hrev; cases hrev
      | some x => exact ⟨x, rfl⟩
    rw [h4 i hi hie, hidv, hrevv]
    constructor
    · simp [getKey_setKey_self]
    · rw [getKey_setKey_ne _ _ _ _ (by decide)]
      simp [getKey_setKey_self]

theorem save_docs_partial_failure_witness :
    ∃ ds errs,
      save_docs_result
          [[("x", JsonVal.num 1)], [("x", JsonVal.num 2)], [("x", JsonVal.num 3)]]
          [[("id", JsonVal.str "i0"), ("rev", JsonVal.str "r0")],
           [("id", JsonVal.str "i1"), ("error", JsonVal.str "conflict")],
           [("id", JsonVal.str "i2"), ("rev", JsonVal.str "r2")]]
        = some (BulkResult.bulkSaveError ds errs) ∧
      errs.length = 1 ∧
      getKey (ds.getD 0 []) "_rev" = some (JsonVal.str "r0") ∧
      getKey (ds.getD 2 []) "_rev" = some (JsonVal.str "r2") := by
  obtain ⟨ds, errs, h1, h2, h3, h4⟩ := save_docs_partial_failure
    [[("x", JsonVal.num 1)], [("x", JsonVal.num 2)], [("x", JsonVal.num 3)]]
    [[("id", JsonVal.str "i0"), ("rev", JsonVal.str "r0")],
     [("id", JsonVal.str "i1"), ("error", JsonVal.str "conflict")],
     [("id", JsonVal.str "i2"), ("rev", JsonVal.str "r2")]]
    (by decide)
    (by decide)
    ⟨[("id", JsonVal.str "i1"), ("error", JsonVal.str "conflict")],
      by simp, by decide⟩
  refine ⟨ds, errs, h1, ?_, ?_, ?_⟩
  · rw [h2]; rfl
  · have := (h4 0 (by decide) (by decide)).1
    rw [this]; rfl
  · have := (h4 2 (by decide) (by decide)).1
    rw [this]; rfl

/-- C7 (counterexample): on a concrete fresh dynamic document instance,
assigning the string "1-abc" to `_rev` does not succeed — it raises
ReservedWordError, during instance attribute assignment. -/
theorem rev_setattr_counterexample :
    doc_setattr ⟨[("doc_type", JsonVal.str "Greeting")], [], [], [], true⟩
        "_rev" (JsonVal.str "1-abc") = SetAttrOutcome.reservedWordError ∧
    ∀ st', doc_setattr ⟨[("doc_type", JsonVal.str "Greeting")], [], [], [], true⟩
        "_rev" (JsonVal.str "1-abc") ≠ SetAttrOutcome.ok st' := by
  refine ⟨rfl, ?_⟩
  intro st' h
  rw [show doc_setattr ⟨[("doc_type", JsonVal.str "Greeting")], [], [], [], true⟩
      "_rev" (JsonVal.str "1-abc") = SetAttrOutcome.reservedWordError from rfl] at h
  cases h

/-- C7 (amended): instance-level assignment to the revision field `_rev`
(or to the schema marker `$schema`) never succeeds for any value: the
reserved-word check that guards class definitions also runs inside
`__setattr__`, so ReservedWordError is raised during instance attribute or
key assignment as well. -/
theorem rev_setattr_reserved (st : DocInstance) (v : JsonVal) :
    doc_setattr st "_rev" v = SetAttrOutcome.reservedWordError ∧
    doc_setattr st "$schema" v = SetAttrOutcome.reservedWordError := by
  constructor
  · rfl
  · rfl

/-- C8 (counterexample): a dynamic instance with a single dynamic field "a"
has wire form `{doc_type: ..., a: ...}`: `len` is 2 while the union of
declared and dynamic field names has 1 element, and the bookkeeping key
`doc_type` tests as contained although it is not a field. -/
theorem doc_len_contains_counterexample :
    doc_len ⟨[("doc_type", JsonVal.str "Thing"), ("a", JsonVal.str "x")],
        [("a", JsonVal.str "x")], [], [], true⟩ = 2 ∧
    (fieldNames ⟨[("doc_type", JsonVal.str "Thing"), ("a", JsonVal.str "x")],
        [("a", JsonVal.str "x")], [], [], true⟩).length = 1 ∧
    doc_contains ⟨[("doc_type", JsonVal.str "Thing"), ("a", JsonVal.str "x")],
        [("a", JsonVal.str "x")], [], [], true⟩ "doc_type" = true ∧
    "doc_type" ∉ fieldNames ⟨[("doc_type", JsonVal.str "Thing"),
        ("a", JsonVal.str "x")], [("a", JsonVal.str "x")], [], [], true⟩ := by
  refine ⟨rfl, rfl, rfl, ?_⟩
  decide

theorem hasKey_iff_mem_keys (d : Doc) (k : String) :
    hasKey d k = true ↔ k ∈ d.map Prod.fst := by
  induction d with
  | nil => simp [hasKey, getKey]
  | cons hd tl ih =>
    obtain ⟨k0, v0⟩ := hd
    by_cases h : k0 = k
    · simp [hasKey, getKey, h]
    · simpa [hasKey, getKey, h, Ne.symm h] using ih

/-- C8 (amended): `len` counts the keys of the canonical wire form — the
stored fields plus bookkeeping keys such as the schema marker — and
containment holds for a key exactly when it is a declared/dynamic field name
or a wire-form key. For an instance whose wire form holds exactly the schema
marker followed by the fields, `len` is the union's size plus one and
containment is membership in the union extended with the marker. -/
theorem doc_len_contains_amended (st : DocInstance) (k : String)
    (hw : st.wire.map Prod.fst = "doc_type" :: fieldNames st) :
    doc_len st = (fieldNames st).length + 1 ∧
    (doc_contains st k = true ↔ (k ∈ fieldNames st ∨ k = "doc_type")) := by
  constructor
  · have : (st.wire.map Prod.fst).length = (fieldNames st).length + 1 := by
      rw [hw]; rfl
    simpa [doc_len] using this
  · have hmem : hasKey st.wire k = true ↔ (k = "doc_type" ∨ k ∈ fieldNames st) := by
      rw [hasKey_iff_mem_keys, hw]
      simp
    have hfield : k ∈ all_property_names st ↔ k ∈ fieldNames st := by
      simp [all_property_names, fieldNames, List.mem_dedup]
    constructor
    · intro h
      have h' : k ∈ all_property_names st ∨ hasKey st.wire k = true := by
        simpa [doc_contains] using h
      rcases h' with h1 | h2
      · exact Or.inl (hfield.mp h1)
      · rcases hmem.mp h2 with h3 | h4
        · exact Or.inr h3
        · exact Or.inl h4
    · intro h
      rcases h with h1 | h2
      · have hin : k ∈ all_property_names st := hfield.mpr h1
        simp [doc_contains, hin]
      · have hin : hasKey st.wire k = true := hmem.mpr (Or.inl h2)
        simp [doc_contains, hin]

theorem doc_len_contains_amended_witness :
    doc_len ⟨[("doc_type", JsonVal.str "Thing"), ("a", JsonVal.str "x")],
        [("a", JsonVal.str "x")], [], [], true⟩
      = (fieldNames ⟨[("doc_type", JsonVal.str "Thing"), ("a", JsonVal.str "x")],
          [("a", JsonVal.str "x")], [], [], true⟩).length + 1 :=
  (doc_len_contains_amended
    ⟨[("doc_type", JsonVal.str "Thing"), ("a", JsonVal.str "x")],
      [("a", JsonVal.str "x")], [], [], true⟩ "a" (by decide)).1

/-- C9 (code evaluated at the deciding statuses): a revision mismatch on a
write is reported by CouchDB as HTTP 409, which this mapping turns into
RequestFailed, while 412 (a failed precondition, e.g. "database already
exists") is the one status turned into the Conflict error — so Conflict is
not raised exactly on revision mismatches. Absent targets (404),
unauthorized access (401/403) and other failures (e.g. 500) map as the
claim says. -/
theorem request_status_error_eval :
    request_status_error 409 = some TransportError.requestFailed ∧
    request_status_error 412 = some TransportError.conflict ∧
    request_status_error 404 = some TransportError.notFound ∧
    request_status_error 401 = some TransportError.unauthorized ∧
    request_status_error 403 = some TransportError.unauthorized ∧
    request_status_error 500 = some TransportError.requestFailed ∧
    request_status_error 200 = none := by
  refine ⟨rfl, rfl, rfl, rfl, rfl, rfl, rfl⟩
